import Mathlib

/-!
Verification of the connection and packet-framing layer of live-f1
(`src/stream.c`), shallowly embedded in Lean.

Bytes are modelled as `Nat` values below 256 (`unsigned char`), buffers as
`List Nat`, and `size_t` arithmetic as `Nat` with explicit wraparound
modulo 2^64 where the C code can underflow.
-/

/-- 2^64, the modulus of `size_t` arithmetic. -/
def SIZE_T_MOD : Nat := 18446744073709551616

/-- `size_t` subtraction `a - b` with wraparound, as in C. -/
def sizeSub (a b : Nat) : Nat := (a + (SIZE_T_MOD - b % SIZE_T_MOD)) % SIZE_T_MOD

/-- stream.c: `#define PACKET_CAR(_p) ((_p)[0] & 0x1f)`. -/
def PACKET_CAR (b0 : Nat) : Nat := b0 &&& 0x1f

/-- stream.c: `#define PACKET_TYPE(_p) (((_p)[0] >> 5) | (((_p)[1] & 0x01) << 3))`. -/
def PACKET_TYPE (b0 b1 : Nat) : Nat := (b0 >>> 5) ||| ((b1 &&& 0x01) <<< 3)

/-- stream.c: `#define SPECIAL_PACKET_DATA(_p) ((_p)[1] >> 1)`. -/
def SPECIAL_PACKET_DATA (b1 : Nat) : Nat := b1 >>> 1

/-- stream.c: `#define LONG_PACKET_LEN(_p) (SPECIAL_PACKET_DATA(_p) + 2)`. -/
def LONG_PACKET_LEN (b1 : Nat) : Nat := SPECIAL_PACKET_DATA b1 + 2

/-- stream.c: `#define SHORT_PACKET_NUL(_p) (((_p)[1] & 0xf0) == 0xf0)`. -/
def SHORT_PACKET_NUL (b1 : Nat) : Bool := (b1 &&& 0xf0) == 0xf0

/-- stream.c: `#define SHORT_PACKET_LEN(_p) ((SHORT_PACKET_NUL(_p) ? 0 : ((_p)[1] >> 4)) + 2)`. -/
def SHORT_PACKET_LEN (b1 : Nat) : Nat :=
  (if SHORT_PACKET_NUL b1 then 0 else b1 >>> 4) + 2

/-- stream.c: `#define SPECIAL_PACKET_LEN(_p) 2`. -/
def SPECIAL_PACKET_LEN : Nat := 2

/-- packetdef.h: `#define MAX_CAR_NUMBER 99`. -/
def MAX_CAR_NUMBER : Nat := 99

/-- stream.c: `static unsigned char packet[129]` — the assembly buffer capacity. -/
def packetCapacity : Nat := 129

/-- The four length classes selected by the switches in `next_packet`. -/
inductive LengthClass where
  | special
  | short
  | fixed4
  | long
deriving DecidableEq, Repr

/-- The car-packet switch in `next_packet` (stream.c lines 304-314):
`CAR_POSITION_UPDATE` (0) is special, `CAR_POSITION_HISTORY` (15) is long,
everything else is short. -/
def carClass (t : Nat) : LengthClass :=
  if t = 0 then LengthClass.special
  else if t = 15 then LengthClass.long
  else LengthClass.short

/-- The system-packet switch in `next_packet` (stream.c lines 316-334):
`SYS_UNKNOWN_SPECIAL_A/B/C` (3, 5, 8) are special; `SYS_EVENT_ID` (1),
`SYS_KEY_FRAME` (2), `SYS_UNKNOWN_SHORT_A` (9), `SYS_UNKNOWN_SHORT_B` (11)
are short; `SYS_STRANGE_A` (7) is a fixed 4; the default is long. -/
def sysClass (t : Nat) : LengthClass :=
  if t = 3 ∨ t = 5 ∨ t = 8 then LengthClass.special
  else if t = 1 ∨ t = 2 ∨ t = 9 ∨ t = 11 then LengthClass.short
  else if t = 7 then LengthClass.fixed4
  else LengthClass.long

/-- Length class of a packet from its two header bytes, following the
`if (PACKET_CAR (packet))` branch of `next_packet`. -/
def lengthClass (b0 b1 : Nat) : LengthClass :=
  if PACKET_CAR b0 ≠ 0 then carClass (PACKET_TYPE b0 b1)
  else sysClass (PACKET_TYPE b0 b1)

/-- Expected length formula attached to each length class in `next_packet`. -/
def classLen (c : LengthClass) (b1 : Nat) : Nat :=
  match c with
  | LengthClass.special => SPECIAL_PACKET_LEN
  | LengthClass.short => SHORT_PACKET_LEN b1
  | LengthClass.fixed4 => 4
  | LengthClass.long => LONG_PACKET_LEN b1

/-- The value `expected` computed by `next_packet` from the two header bytes. -/
def expectedLength (b0 b1 : Nat) : Nat := classLen (lengthClass b0 b1) b1

/-- First block of `next_packet` (stream.c lines 291-300): while fewer than
two bytes are buffered, copy `MIN (*buf_len, 2 - *packet_len)` bytes of the
input into the packet buffer. Returns the new buffer contents and the
remaining input. -/
def headerFill (packet buf : List Nat) : List Nat × List Nat :=
  if packet.length < 2 then
    (packet ++ buf.take (min buf.length (2 - packet.length)),
     buf.drop (min buf.length (2 - packet.length)))
  else (packet, buf)

/-- Second block of `next_packet` (stream.c lines 302-345): with the header
complete, compute `expected`, copy `MIN (*buf_len, expected - *packet_len)`
further bytes (`size_t` subtraction), and report completion as
`*packet_len == expected`. -/
def bodyFill (packet buf : List Nat) : List Nat × List Nat × Bool :=
  let expected := expectedLength (packet.getD 0 0) (packet.getD 1 0)
  let needed := min buf.length (sizeSub expected packet.length)
  (packet ++ buf.take needed, buf.drop needed,
   (packet ++ buf.take needed).length == expected)

/-- `next_packet` (stream.c lines 280-346): returns the new packet-buffer
contents, the unconsumed input, and whether the packet is now complete.
The early `return 0` when fewer than two bytes are available is the first
branch. -/
def next_packet (packet buf : List Nat) : List Nat × List Nat × Bool :=
  if (headerFill packet buf).1.length < 2 then
    ((headerFill packet buf).1, (headerFill packet buf).2, false)
  else
    bodyFill (headerFill packet buf).1 (headerFill packet buf).2

/-- The `while (next_packet (...))` loop of `parse_stream_block`, with
explicit fuel (the loop terminates because every completed packet removes at
least two bytes from the pool of unconsumed bytes). Returns the final
buffer contents and the list of emitted completed packets. -/
def parseLoop : Nat → List Nat → List Nat → List Nat × List (List Nat)
  | 0, packet, _ => (packet, [])
  | fuel + 1, packet, buf =>
    match next_packet packet buf with
    | (p2, b2, true) =>
        ((parseLoop fuel [] b2).1, p2 :: (parseLoop fuel [] b2).2)
    | (p2, _, false) => (p2, [])

/-- `parse_stream_block` (stream.c lines 252-265): loop `next_packet` over
the block, resetting `packet_len` to 0 after each completed packet. The
first argument is the persistent (`static`) assembly-buffer state on entry;
the result is the state on exit together with the emitted packets. -/
def parse_stream_block (packet buf : List Nat) : List Nat × List (List Nat) :=
  parseLoop (packet.length + buf.length + 1) packet buf

/-- Feeding a sequence of input chunks to `parse_stream_block` in order,
threading the persistent assembly-buffer state across calls. -/
def feedChunks (packet : List Nat) (chunks : List (List Nat)) :
    List Nat × List (List Nat) :=
  match chunks with
  | [] => (packet, [])
  | c :: cs =>
      ((feedChunks (parse_stream_block packet c).1 cs).1,
       (parse_stream_block packet c).2 ++
         (feedChunks (parse_stream_block packet c).1 cs).2)

/-- A valid packet byte sequence: bytes below 256, and total length exactly
the expected length computed from its first two header bytes. -/
def ValidPacket (s : List Nat) : Prop :=
  (∀ x ∈ s, x < 256) ∧ s.length = expectedLength (s.getD 0 0) (s.getD 1 0)

instance (s : List Nat) : Decidable (ValidPacket s) := by
  unfold ValidPacket; infer_instance

/-- Observable I/O actions performed by one `read_stream` call, in order,
after the initial `poll`. -/
inductive StreamAction where
  | writePing
  | readData
  | closeSock
  | parseBlock
deriving DecidableEq, Repr

/-- Outcome of `poll` as observed by `read_stream`: failure, timeout, or
readiness with the `POLLERR|POLLNVAL`, `POLLHUP` and `POLLIN` bits of
`revents` plus the results the subsequent syscalls would return
(`writeOk` = the ping write succeeds; `readRet` = the `read` return). -/
inductive StreamEvent where
  | pollFail
  | timeout (writeOk : Bool)
  | ready (err hup hasData : Bool) (pollRet readRet : Int)
deriving DecidableEq, Repr

/-- Result of one `read_stream` call: the new value of the `static int
timer`, the return value, and the I/O actions performed. -/
structure ReadOutcome where
  timer : Nat
  ret : Int
  actions : List StreamAction
deriving DecidableEq, Repr

/-- `read_stream` (stream.c lines 178-241) as a function of the persistent
idle counter (`static int timer`) and the environment's responses. -/
def read_stream (timer : Nat) (ev : StreamEvent) : ReadOutcome :=
  match ev with
  | StreamEvent.pollFail => ⟨timer, -1, [StreamAction.closeSock]⟩
  | StreamEvent.timeout writeOk =>
      if timer < 10 then ⟨timer + 1, 1, []⟩
      else if writeOk then ⟨0, 1, [StreamAction.writePing]⟩
      else ⟨timer + 1, -1, [StreamAction.writePing, StreamAction.closeSock]⟩
  | StreamEvent.ready err hup hasData pollRet readRet =>
      if err then ⟨timer, -1, [StreamAction.closeSock]⟩
      else if hup then ⟨timer, 0, [StreamAction.closeSock]⟩
      else if hasData then
        if readRet < 0 then
          ⟨timer, -1, [StreamAction.readData, StreamAction.closeSock]⟩
        else if readRet = 0 then
          ⟨timer, 0, [StreamAction.readData, StreamAction.closeSock]⟩
        else ⟨0, readRet, [StreamAction.readData, StreamAction.parseBlock]⟩
      else ⟨0, pollRet, []⟩

/-- Iterating `read_stream` over a list of events, accumulating all
performed actions. -/
def run_read_stream (timer : Nat) (evs : List StreamEvent) :
    Nat × List StreamAction :=
  match evs with
  | [] => (timer, [])
  | ev :: rest =>
      ((run_read_stream (read_stream timer ev).timer rest).1,
       (read_stream timer ev).actions ++
         (run_read_stream (read_stream timer ev).timer rest).2)

/-- Number of keepalive pings in a list of actions. -/
def pingCount (acts : List StreamAction) : Nat :=
  acts.count StreamAction.writePing

lemma shiftRight_four_le (b1 : Nat) (h1 : b1 < 256) : b1 >>> 4 ≤ 15 := by
  have h := Nat.shiftRight_eq_div_pow b1 4
  norm_num at h
  omega

lemma shiftRight_one_le (b1 : Nat) (h1 : b1 < 256) : b1 >>> 1 ≤ 127 := by
  have h := Nat.shiftRight_eq_div_pow b1 1
  norm_num at h
  omega

lemma expectedLength_ge_two (b0 b1 : Nat) : 2 ≤ expectedLength b0 b1 := by
  unfold expectedLength
  cases lengthClass b0 b1 <;>
    simp [classLen, SPECIAL_PACKET_LEN, SHORT_PACKET_LEN, LONG_PACKET_LEN,
      SPECIAL_PACKET_DATA]

lemma expectedLength_le_cap (b0 b1 : Nat) (h1 : b1 < 256) :
    expectedLength b0 b1 ≤ 129 := by
  have h4 := shiftRight_four_le b1 h1
  have ho := shiftRight_one_le b1 h1
  unfold expectedLength
  cases lengthClass b0 b1 <;>
    simp [classLen, SPECIAL_PACKET_LEN, SHORT_PACKET_LEN, LONG_PACKET_LEN,
      SPECIAL_PACKET_DATA] <;>
    first
    | omega
    | (split <;> omega)

/-- C2: for every pair of header bytes, the expected length computed by the
classification in `next_packet` is at least 2 and at most 129, the capacity
of the assembly buffer `packet[129]`, so the `memcpy` into the buffer never
writes past index 128. -/
theorem buffer_bound_safety (b0 b1 : Nat) (h0 : b0 < 256) (h1 : b1 < 256) :
    2 ≤ expectedLength b0 b1 ∧ expectedLength b0 b1 ≤ packetCapacity ∧
      packetCapacity = 129 := by
  refine ⟨expectedLength_ge_two b0 b1, ?_, rfl⟩
  have := expectedLength_le_cap b0 b1 h1
  simpa [packetCapacity] using this

/-- Witness for C2 at the concrete header pair (0, 0). -/
theorem buffer_bound_safety_witness :
    2 ≤ expectedLength 0 0 ∧ expectedLength 0 0 ≤ packetCapacity ∧
      packetCapacity = 129 :=
  buffer_bound_safety 0 0 (by decide) (by decide)

/-- C4 counterexample: header bytes 0x21, 0xF0 give a car packet (car 1)
with type 1 (neither 0 nor 15) bearing the null marker, yet the computed
expected length is 2, not 0 as the claim states. -/
theorem short_nul_counterexample :
    PACKET_CAR 0x21 ≠ 0 ∧ PACKET_TYPE 0x21 0xF0 ≠ 0 ∧
      PACKET_TYPE 0x21 0xF0 ≠ 15 ∧ (0xF0 &&& 0xF0) = 0xF0 ∧
      expectedLength 0x21 0xF0 ≠ 0 ∧ expectedLength 0x21 0xF0 = 2 := by
  decide

/-- C4 amended: for every car packet of short class carrying the null
marker `(byte1 & 0xF0) == 0xF0`, the computed expected length is 2 (the
bare header: the null marker zeroes only the data-length nibble before the
`+ 2` for the header is applied). -/
theorem short_nul_expected_two (b0 b1 : Nat) (hcar : PACKET_CAR b0 ≠ 0)
    (ht0 : PACKET_TYPE b0 b1 ≠ 0) (ht15 : PACKET_TYPE b0 b1 ≠ 15)
    (hnul : b1 &&& 0xf0 = 0xf0) :
    expectedLength b0 b1 = 2 := by
  have hc : lengthClass b0 b1 = LengthClass.short := by
    unfold lengthClass carClass
    rw [if_pos hcar, if_neg ht0, if_neg ht15]
  unfold expectedLength
  rw [hc]
  simp [classLen, SHORT_PACKET_LEN, SHORT_PACKET_NUL, hnul]

/-- Witness for the amended C4 at header bytes 0x21, 0xF0. -/
theorem short_nul_expected_two_witness : expectedLength 0x21 0xF0 = 2 :=
  short_nul_expected_two 0x21 0xF0 (by decide) (by decide) (by decide)
    (by decide)

/-- C6: for header bytes [0x20, 0x10] the computed expected length is 3,
and feeding [0x20, 0x10, 0xAB] as one chunk, or as [0x20] followed by
[0x10, 0xAB], both produce exactly one completed packet whose single
payload byte (the byte after the 2-byte header) is 0xAB. -/
theorem classification_determinism :
    expectedLength 0x20 0x10 = 3 ∧
      parse_stream_block [] [0x20, 0x10, 0xAB] = ([], [[0x20, 0x10, 0xAB]]) ∧
      feedChunks [] [[0x20], [0x10, 0xAB]] = ([], [[0x20, 0x10, 0xAB]]) ∧
      List.drop 2 [0x20, 0x10, 0xAB] = [0xAB] := by
  decide

lemma sysClass_eq_fixed4_iff (t : Nat) :
    sysClass t = LengthClass.fixed4 ↔ t = 7 := by
  by_cases h1 : t = 3 ∨ t = 5 ∨ t = 8
  · simp [sysClass, h1]; omega
  · by_cases h2 : t = 1 ∨ t = 2 ∨ t = 9 ∨ t = 11
    · simp [sysClass, h1, h2]; omega
    · by_cases h3 : t = 7
      · simp [sysClass, h1, h2, h3]
      · simp [sysClass, h1, h2, h3]

lemma sysClass_unrecognized (t : Nat) (h : ¬(1 ≤ t ∧ t ≤ 12)) :
    sysClass t = LengthClass.long := by
  by_cases h1 : t = 3 ∨ t = 5 ∨ t = 8
  · omega
  · by_cases h2 : t = 1 ∨ t = 2 ∨ t = 9 ∨ t = 11
    · omega
    · by_cases h3 : t = 7
      · omega
      · simp [sysClass, h1, h2, h3]

/-- C7: for system packets (car field 0), exactly one type code (7,
`SYS_STRANGE_A`) maps to the fixed 4-byte class; every other class is
special (2), short, or the long fallback `(byte1 >> 1) + 2`; and
unrecognized type codes (outside the enumerated range 1..12) fall back to
the long formula. -/
theorem system_fixed4_class (b0 b1 : Nat) (hcar : PACKET_CAR b0 = 0) :
    (lengthClass b0 b1 = LengthClass.fixed4 ↔ PACKET_TYPE b0 b1 = 7)
    ∧ (lengthClass b0 b1 = LengthClass.fixed4 → expectedLength b0 b1 = 4)
    ∧ (lengthClass b0 b1 = LengthClass.special →
        expectedLength b0 b1 = SPECIAL_PACKET_LEN)
    ∧ (lengthClass b0 b1 = LengthClass.short →
        expectedLength b0 b1 = SHORT_PACKET_LEN b1)
    ∧ (lengthClass b0 b1 = LengthClass.long →
        expectedLength b0 b1 = (b1 >>> 1) + 2)
    ∧ (¬(1 ≤ PACKET_TYPE b0 b1 ∧ PACKET_TYPE b0 b1 ≤ 12) →
        lengthClass b0 b1 = LengthClass.long)
    ∧ (lengthClass b0 b1 ≠ LengthClass.fixed4 →
        lengthClass b0 b1 = LengthClass.special ∨
          lengthClass b0 b1 = LengthClass.short ∨
          lengthClass b0 b1 = LengthClass.long) := by
  have hl : lengthClass b0 b1 = sysClass (PACKET_TYPE b0 b1) := by
    unfold lengthClass
    rw [if_neg (by simp [hcar])]
  refine ⟨?_, ?_, ?_, ?_, ?_, ?_, ?_⟩
  · rw [hl]; exact sysClass_eq_fixed4_iff _
  · intro h; unfold expectedLength; rw [h]; rfl
  · intro h; unfold expectedLength; rw [h]; rfl
  · intro h; unfold expectedLength; rw [h]; rfl
  · intro h; unfold expectedLength; rw [h]; rfl
  · intro h; rw [hl]; exact sysClass_unrecognized _ h
  · intro h; cases hc : lengthClass b0 b1 <;> simp_all

/-- Witness for C7 at the concrete header pair (0xE0, 0x00): system packet
of type 7, the fixed 4-byte class. -/
theorem system_fixed4_class_witness :
    (lengthClass 0xE0 0x00 = LengthClass.fixed4 ↔ PACKET_TYPE 0xE0 0x00 = 7)
    ∧ (lengthClass 0xE0 0x00 = LengthClass.fixed4 →
        expectedLength 0xE0 0x00 = 4)
    ∧ (lengthClass 0xE0 0x00 = LengthClass.special →
        expectedLength 0xE0 0x00 = SPECIAL_PACKET_LEN)
    ∧ (lengthClass 0xE0 0x00 = LengthClass.short →
        expectedLength 0xE0 0x00 = SHORT_PACKET_LEN 0x00)
    ∧ (lengthClass 0xE0 0x00 = LengthClass.long →
        expectedLength 0xE0 0x00 = (0x00 >>> 1) + 2)
    ∧ (¬(1 ≤ PACKET_TYPE 0xE0 0x00 ∧ PACKET_TYPE 0xE0 0x00 ≤ 12) →
        lengthClass 0xE0 0x00 = LengthClass.long)
    ∧ (lengthClass 0xE0 0x00 ≠ LengthClass.fixed4 →
        lengthClass 0xE0 0x00 = LengthClass.special ∨
          lengthClass 0xE0 0x00 = LengthClass.short ∨
          lengthClass 0xE0 0x00 = LengthClass.long) :=
  system_fixed4_class 0xE0 0x00 (by decide)

lemma run_timeout_pings (k : Nat) :
    ∀ t : Nat, t ≤ 10 →
      pingCount
          (run_read_stream t (List.replicate k (StreamEvent.timeout true))).2 =
        (t + k) / 11 := by
  induction k with
  | zero =>
      intro t ht
      simp [run_read_stream, pingCount]
      omega
  | succ k ih =>
      intro t ht
      rw [List.replicate_succ]
      by_cases h : t < 10
      · have hstep : read_stream t (StreamEvent.timeout true) = ⟨t + 1, 1, []⟩ := by
          simp [read_stream, h]
        simp only [run_read_stream, hstep, List.nil_append]
        rw [ih (t + 1) (by omega)]
        omega
      · have ht10 : t = 10 := by omega
        subst ht10
        have hstep : read_stream 10 (StreamEvent.timeout true) =
            ⟨0, 1, [StreamAction.writePing]⟩ := by
          simp [read_stream]
        simp only [run_read_stream, hstep]
        simp only [pingCount, List.count_append] at *
        rw [ih 0 (by omega)]
        simp [List.count_singleton]
        omega

/-- C3 counterexample: starting from a reset idle counter, ten consecutive
timed-out poll calls send no keepalive byte at all (the ping is only sent
on the call that finds the counter already at 10, i.e. the eleventh),
contradicting "exactly one keepalive byte per 10 consecutive idle poll
calls". -/
theorem keepalive_ten_idle_no_ping :
    pingCount
        (run_read_stream 0 (List.replicate 10 (StreamEvent.timeout true))).2 = 0
    ∧ ¬ pingCount
        (run_read_stream 0 (List.replicate 10 (StreamEvent.timeout true))).2 = 1 := by
  decide

/-- C3 amended: with no inbound data, `read_stream` sends exactly one
keepalive byte (value 0x10) per 11 consecutive idle (timed-out) poll calls
— the counter is incremented on each of the first 10 and the ping is
written on the call that finds it at 10 — and the idle counter is reset to
0 both immediately after a ping is written and after any call in which
data arrives. -/
theorem keepalive_cadence :
    (∀ k : Nat,
        pingCount
            (run_read_stream 0 (List.replicate k (StreamEvent.timeout true))).2 =
          k / 11)
    ∧ (∀ t : Nat, 10 ≤ t →
        read_stream t (StreamEvent.timeout true) =
          ⟨0, 1, [StreamAction.writePing]⟩)
    ∧ (∀ (t : Nat) (pr rr : Int), 0 < rr →
        (read_stream t (StreamEvent.ready false false true pr rr)).timer = 0) := by
  refine ⟨fun k => ?_, fun t ht => ?_, fun t pr rr hrr => ?_⟩
  · have h := run_timeout_pings k 0 (by omega)
    simpa using h
  · simp [read_stream, show ¬ t < 10 by omega]
  · simp [read_stream, show ¬ rr < 0 by omega, show ¬ rr = 0 by omega]

/-- Witness for the amended C3: eleven idle polls yield exactly one ping;
a call with the counter at 10 pings and resets; a data arrival resets. -/
theorem keepalive_cadence_witness :
    pingCount
        (run_read_stream 0 (List.replicate 11 (StreamEvent.timeout true))).2 =
      11 / 11
    ∧ read_stream 10 (StreamEvent.timeout true) =
        ⟨0, 1, [StreamAction.writePing]⟩
    ∧ (read_stream 3 (StreamEvent.ready false false true 1 5)).timer = 0 :=
  ⟨keepalive_cadence.1 11, keepalive_cadence.2.1 10 (by decide),
    keepalive_cadence.2.2 3 1 5 (by decide)⟩

/-- C8: whenever `read_stream` observes a hang-up event from poll, or a
read that returns zero bytes, it closes the socket exactly once (the close
is the final I/O action of the call) and returns 0 (`Closed`); no write or
further read follows the close within the call. -/
theorem shutdown_detection :
    ∀ (t : Nat) (hasData : Bool) (pr rr : Int),
      (read_stream t (StreamEvent.ready false true hasData pr rr)).ret = 0
      ∧ (read_stream t (StreamEvent.ready false true hasData pr rr)).actions =
          [StreamAction.closeSock]
      ∧ (read_stream t (StreamEvent.ready false false true pr 0)).ret = 0
      ∧ (read_stream t (StreamEvent.ready false false true pr 0)).actions =
          [StreamAction.readData, StreamAction.closeSock]
      ∧ (read_stream t (StreamEvent.ready false true hasData pr rr)).actions.count
          StreamAction.closeSock = 1
      ∧ (read_stream t (StreamEvent.ready false false true pr 0)).actions.count
          StreamAction.closeSock = 1
      ∧ (read_stream t (StreamEvent.ready false true hasData pr rr)).actions.getLast?
          = some StreamAction.closeSock
      ∧ (read_stream t (StreamEvent.ready false false true pr 0)).actions.getLast?
          = some StreamAction.closeSock := by
  intro t hasData pr rr
  refine ⟨?_, ?_, ?_, ?_, ?_, ?_, ?_, ?_⟩ <;> simp [read_stream]

/-- C9: the car index extracted by `PACKET_CAR` (`byte0 & 0x1f`) always
lies in [0, 31]; although `MAX_CAR_NUMBER` is 99, car indices 32 through
99 can never be produced by the header decoder. -/
theorem car_index_range :
    (∀ b0 : Nat, PACKET_CAR b0 ≤ 31)
    ∧ (∀ b0 c : Nat, 32 ≤ c → c ≤ MAX_CAR_NUMBER → PACKET_CAR b0 ≠ c) := by
  have h : ∀ b0 : Nat, PACKET_CAR b0 ≤ 31 := fun b0 => Nat.and_le_right
  refine ⟨h, fun b0 c h32 _ hc => ?_⟩
  have := h b0
  omega

/-- Witness for C9 at byte 0xFF and excluded car index 32. -/
theorem car_index_range_witness :
    PACKET_CAR 0xFF ≤ 31 ∧ PACKET_CAR 0xFF ≠ 32 :=
  ⟨car_index_range.1 0xFF, car_index_range.2 0xFF 32 (by decide) (by decide)⟩

lemma sizeSub_of_le (a b : Nat) (hb : b ≤ a) (ha : a < SIZE_T_MOD) :
    sizeSub a b = a - b := by
  unfold sizeSub SIZE_T_MOD
  unfold SIZE_T_MOD at ha
  omega

lemma headerFill_nil_nil : headerFill [] [] = ([], []) := by
  simp [headerFill]

lemma headerFill_nil_one (x : Nat) : headerFill [] [x] = ([x], []) := by
  simp [headerFill]

lemma headerFill_one_nil (x : Nat) : headerFill [x] [] = ([x], []) := by
  simp [headerFill]

lemma headerFill_nil_cons (x y : Nat) (l : List Nat) :
    headerFill [] (x :: y :: l) = ([x, y], l) := by
  unfold headerFill
  rw [if_pos (by simp)]
  have hm : min (x :: y :: l).length (2 - ([] : List Nat).length) = 2 := by
    simp
  rw [hm]
  simp

lemma headerFill_one_cons (x y : Nat) (l : List Nat) :
    headerFill [x] (y :: l) = ([x, y], l) := by
  unfold headerFill
  rw [if_pos (by simp)]
  have hm : min (y :: l).length (2 - ([x] : List Nat).length) = 1 := by
    simp
  rw [hm]
  simp

lemma headerFill_full (p b : List Nat) (h : 2 ≤ p.length) :
    headerFill p b = (p, b) := by
  unfold headerFill
  rw [if_neg (by omega)]

lemma bodyFill_tail (b0 b1 : Nat) (p' c t : List Nat)
    (hE : expectedLength b0 b1 = p'.length + c.length + 2)
    (hcap : expectedLength b0 b1 < SIZE_T_MOD) :
    bodyFill (b0 :: b1 :: p') (c ++ t) = (b0 :: b1 :: (p' ++ c), t, true) := by
  unfold bodyFill
  dsimp only
  have hget0 : (b0 :: b1 :: p').getD 0 0 = b0 := rfl
  have hget1 : (b0 :: b1 :: p').getD 1 0 = b1 := rfl
  rw [hget0, hget1]
  have hsub : sizeSub (expectedLength b0 b1) (b0 :: b1 :: p').length = c.length := by
    rw [sizeSub_of_le _ _ (by simp; omega) hcap]
    simp
    omega
  rw [hsub]
  have hmin : min (c ++ t).length c.length = c.length := by
    simp
  rw [hmin]
  rw [List.take_left' rfl, List.drop_left' rfl]
  simp [hE]

lemma bodyFill_short (b0 b1 : Nat) (p' c r : List Nat)
    (hE : expectedLength b0 b1 = p'.length + c.length + r.length + 2)
    (hr : r ≠ []) (hcap : expectedLength b0 b1 < SIZE_T_MOD) :
    bodyFill (b0 :: b1 :: p') c = (b0 :: b1 :: (p' ++ c), [], false) := by
  unfold bodyFill
  dsimp only
  have hget0 : (b0 :: b1 :: p').getD 0 0 = b0 := rfl
  have hget1 : (b0 :: b1 :: p').getD 1 0 = b1 := rfl
  rw [hget0, hget1]
  have hsub : sizeSub (expectedLength b0 b1) (b0 :: b1 :: p').length =
      c.length + r.length := by
    rw [sizeSub_of_le _ _ (by simp; omega) hcap]
    simp
    omega
  rw [hsub]
  have hmin : min c.length (c.length + r.length) = c.length := by omega
  rw [hmin]
  rw [List.take_length, List.drop_length]
  have hrlen : 0 < r.length := List.length_pos.mpr hr
  simp only [Prod.mk.injEq, List.length_append, List.length_cons,
    beq_eq_false_iff_ne, and_true, true_and]
  exact ⟨rfl, by omega⟩

lemma headerFill_conserve (p b : List Nat) :
    (headerFill p b).1.length + (headerFill p b).2.length =
      p.length + b.length := by
  unfold headerFill
  split
  · simp
    omega
  · simp

lemma bodyFill_conserve (q b : List Nat) :
    (bodyFill q b).1.length + (bodyFill q b).2.1.length = q.length + b.length := by
  unfold bodyFill
  dsimp only
  simp only [List.length_append, List.length_take, List.length_drop]
  omega

lemma next_packet_conserve (p b : List Nat) :
    (next_packet p b).1.length + (next_packet p b).2.1.length =
      p.length + b.length := by
  unfold next_packet
  by_cases h : (headerFill p b).1.length < 2
  · rw [if_pos h]
    exact headerFill_conserve p b
  · rw [if_neg h]
    rw [bodyFill_conserve]
    exact headerFill_conserve p b

lemma next_packet_done_len (p b : List Nat)
    (h : (next_packet p b).2.2 = true) : 2 ≤ (next_packet p b).1.length := by
  unfold next_packet at *
  by_cases hlt : (headerFill p b).1.length < 2
  · rw [if_pos hlt] at h
    simp at h
  · rw [if_neg hlt] at *
    unfold bodyFill
    dsimp only
    simp only [List.length_append]
    omega

lemma parseLoop_fuel : ∀ (f1 f2 : Nat) (p b : List Nat),
    p.length + b.length < f1 → p.length + b.length < f2 →
    parseLoop f1 p b = parseLoop f2 p b := by
  intro f1
  induction f1 with
  | zero => intro f2 p b h1 _; omega
  | succ f ih =>
      intro f2 p b h1 h2
      cases f2 with
      | zero => omega
      | succ g =>
          rcases hnp : next_packet p b with ⟨p2, b2, done⟩
          have hcons : p2.length + b2.length = p.length + b.length := by
            have h := next_packet_conserve p b
            rw [hnp] at h
            exact h
          cases done
          · simp only [parseLoop, hnp]
          · have h2le : 2 ≤ p2.length := by
              have h := next_packet_done_len p b (by rw [hnp])
              rw [hnp] at h
              exact h
            simp only [parseLoop, hnp]
            rw [ih g [] b2 (by simp; omega) (by simp; omega)]

lemma valid_len (s : List Nat) (hs : ValidPacket s) : 2 ≤ s.length :=
  hs.2 ▸ expectedLength_ge_two _ _

lemma next_packet_complete (s p c t : List Nat) (hs : ValidPacket s)
    (hpc : p ++ c = s) :
    next_packet p (c ++ t) = (s, t, true) := by
  obtain ⟨hbytes, hlen⟩ := hs
  have h2 : 2 ≤ s.length := hlen ▸ expectedLength_ge_two _ _
  rcases s with _ | ⟨b0, _ | ⟨b1, rest⟩⟩
  · simp at h2
  · simp at h2
  · have hE : expectedLength b0 b1 = rest.length + 2 := by
      simp only [List.getD_cons_zero, List.getD_cons_succ, List.length_cons]
        at hlen
      omega
    have hb1 : b1 < 256 := hbytes b1 (by simp)
    have hcap : expectedLength b0 b1 < SIZE_T_MOD := by
      have := expectedLength_le_cap b0 b1 hb1
      unfold SIZE_T_MOD
      omega
    rcases p with _ | ⟨x, _ | ⟨y, p'⟩⟩
    · simp only [List.nil_append] at hpc
      subst hpc
      unfold next_packet
      rw [show (b0 :: b1 :: rest) ++ t = b0 :: b1 :: (rest ++ t) by simp]
      rw [headerFill_nil_cons]
      rw [if_neg (by simp)]
      have h := bodyFill_tail b0 b1 [] rest t (by simpa using hE) hcap
      simpa using h
    · obtain ⟨hx, hc⟩ : x = b0 ∧ c = b1 :: rest := by simpa using hpc
      subst hx
      subst hc
      unfold next_packet
      rw [show (b1 :: rest) ++ t = b1 :: (rest ++ t) by simp]
      rw [headerFill_one_cons]
      rw [if_neg (by simp)]
      have h := bodyFill_tail x b1 [] rest t (by simpa using hE) hcap
      simpa using h
    · obtain ⟨hx, hy, hpc'⟩ : x = b0 ∧ y = b1 ∧ p' ++ c = rest := by
        simpa using hpc
      subst hx
      subst hy
      unfold next_packet
      rw [headerFill_full _ _ (by simp)]
      rw [if_neg (by simp)]
      have h := bodyFill_tail x y p' c t
        (by rw [hE, ← hpc']; simp) hcap
      rw [h, hpc']

lemma next_packet_partial (s p c r : List Nat) (hs : ValidPacket s)
    (hpcr : p ++ c ++ r = s) (hr : r ≠ []) :
    next_packet p c = (p ++ c, [], false) := by
  obtain ⟨hbytes, hlen⟩ := hs
  have h2 : 2 ≤ s.length := hlen ▸ expectedLength_ge_two _ _
  rcases s with _ | ⟨b0, _ | ⟨b1, rest⟩⟩
  · simp at h2
  · simp at h2
  · have hE : expectedLength b0 b1 = rest.length + 2 := by
      simp only [List.getD_cons_zero, List.getD_cons_succ, List.length_cons]
        at hlen
      omega
    have hb1 : b1 < 256 := hbytes b1 (by simp)
    have hcap : expectedLength b0 b1 < SIZE_T_MOD := by
      have := expectedLength_le_cap b0 b1 hb1
      unfold SIZE_T_MOD
      omega
    rcases p with _ | ⟨x, _ | ⟨y, p'⟩⟩
    · simp only [List.nil_append] at hpcr
      rcases c with _ | ⟨u, _ | ⟨v, c'⟩⟩
      · unfold next_packet
        rw [headerFill_nil_nil]
        rw [if_pos (by simp)]
        simp
      · have hu : u = b0 := by
          have h := hpcr
          simp at h
          exact h.1
        subst hu
        unfold next_packet
        rw [headerFill_nil_one]
        rw [if_pos (by simp)]
        simp
      · obtain ⟨hu, hv, hcr⟩ : u = b0 ∧ v = b1 ∧ c' ++ r = rest := by
          simpa using hpcr
        subst hu
        subst hv
        unfold next_packet
        rw [headerFill_nil_cons]
        rw [if_neg (by simp)]
        have h := bodyFill_short u v [] c' r
          (by rw [hE, ← hcr]; simp) hr hcap
        simpa using h
    · obtain ⟨hx1, hcr⟩ : x = b0 ∧ c ++ r = b1 :: rest := by simpa using hpcr
      subst hx1
      rcases c with _ | ⟨v, c'⟩
      · unfold next_packet
        rw [headerFill_one_nil]
        rw [if_pos (by simp)]
        simp
      · obtain ⟨hv, hcr'⟩ : v = b1 ∧ c' ++ r = rest := by simpa using hcr
        subst hv
        unfold next_packet
        rw [headerFill_one_cons]
        rw [if_neg (by simp)]
        have h := bodyFill_short x v [] c' r
          (by rw [hE, ← hcr']; simp) hr hcap
        simpa using h
    · obtain ⟨hx, hy, hrest⟩ : x = b0 ∧ y = b1 ∧ p' ++ (c ++ r) = rest := by
        simpa [List.append_assoc] using hpcr
      subst hx
      subst hy
      unfold next_packet
      rw [headerFill_full _ _ (by simp)]
      rw [if_neg (by simp)]
      have h := bodyFill_short x y p' c r
        (by rw [hE, ← hrest]; simp [List.length_append]; omega) hr hcap
      rw [h]
      simp

lemma parse_complete (s p c t : List Nat) (hs : ValidPacket s)
    (hpc : p ++ c = s) :
    parse_stream_block p (c ++ t) =
      ((parse_stream_block [] t).1, s :: (parse_stream_block [] t).2) := by
  have hnp := next_packet_complete s p c t hs hpc
  have hslen : 2 ≤ s.length := valid_len s hs
  have hlens : p.length + c.length = s.length := by
    rw [← hpc]
    simp
  have key : parse_stream_block p (c ++ t) =
      ((parseLoop (p.length + (c ++ t).length) [] t).1,
       s :: (parseLoop (p.length + (c ++ t).length) [] t).2) := by
    unfold parse_stream_block
    simp only [parseLoop, hnp]
  have hfuel : parseLoop (p.length + (c ++ t).length) [] t =
      parse_stream_block [] t := by
    unfold parse_stream_block
    exact parseLoop_fuel _ _ [] t
      (by simp only [List.length_nil, List.length_append]; omega)
      (by simp only [List.length_nil]; omega)
  rw [key, hfuel]

lemma parse_partial (s p c r : List Nat) (hs : ValidPacket s)
    (hpcr : p ++ c ++ r = s) (hr : r ≠ []) :
    parse_stream_block p c = (p ++ c, []) := by
  have hnp := next_packet_partial s p c r hs hpcr hr
  unfold parse_stream_block
  simp only [parseLoop, hnp]

/-- C5: feeding a valid packet followed by any further bytes to the
assembler (from the reset state) emits that packet and then processes the
remainder exactly as a fresh assembler would: immediately after the
emission the state is `AwaitingHeader` with zero buffered bytes, leaving
no residual state for the subsequent input. -/
theorem reset_property (s t : List Nat) (hs : ValidPacket s) :
    parse_stream_block [] (s ++ t) =
      ((parse_stream_block [] t).1, s :: (parse_stream_block [] t).2) :=
  parse_complete s [] s t hs (by simp)

/-- Witness for C5: the special packet [0x05, 0x00] followed by a stray
byte 0x21. -/
theorem reset_property_witness :
    parse_stream_block [] ([0x05, 0x00] ++ [0x21]) = ([0x21], [[0x05, 0x00]]) := by
  rw [reset_property [0x05, 0x00] [0x21] (by decide)]
  decide

lemma feed_chunks_seg (s : List Nat) (hs : ValidPacket s) :
    ∀ (chunks : List (List Nat)) (p : List Nat),
      (∀ c ∈ chunks, c ≠ []) → p ++ chunks.flatten = s → p ≠ s →
      feedChunks p chunks = ([], [s]) := by
  intro chunks
  induction chunks with
  | nil =>
      intro p hne hj hps
      simp at hj
      exact absurd hj hps
  | cons c cs ih =>
      intro p hne hj hps
      have hne' : ∀ d ∈ cs, d ≠ [] := fun d hd => hne d (by simp [hd])
      by_cases hcs : cs.flatten = []
      · have hpc : p ++ c = s := by
          have hj' := hj
          simp only [List.flatten_cons, hcs, List.append_nil] at hj'
          exact hj'
        have hnil : parse_stream_block [] [] = (([] : List Nat), ([] : List (List Nat))) := by
          decide
        have hparse : parse_stream_block p c = ([], [s]) := by
          have h := parse_complete s p c [] hs hpc
          simp only [List.append_nil] at h
          rw [h, hnil]
        have hcs0 : cs = [] := by
          cases cs with
          | nil => rfl
          | cons d ds =>
              exfalso
              have hd : d ≠ [] := hne' d (by simp)
              simp only [List.flatten_cons] at hcs
              exact hd (List.append_eq_nil.mp hcs).1
        subst hcs0
        simp [feedChunks, hparse]
      · have hj2 : (p ++ c) ++ cs.flatten = s := by
          simpa [List.append_assoc, List.flatten_cons] using hj
        have hparse : parse_stream_block p c = (p ++ c, []) :=
          parse_partial s p c cs.flatten hs hj2 hcs
        have hps' : p ++ c ≠ s := by
          intro h
          apply hcs
          rw [h] at hj2
          have h2 : s ++ cs.flatten = s ++ [] := by
            rw [List.append_nil]
            exact hj2
          exact List.append_cancel_left h2
        have hrec := ih (p ++ c) hne' hj2 hps'
        simp [feedChunks, hparse, hrec]

/-- C1: for every valid packet byte sequence and every partition of it
into non-empty chunks, feeding the chunks in order to
`parse_stream_block` / `next_packet` (from the reset state) emits exactly
one completed packet whose bytes equal the original sequence, independent
of the chunk boundaries. -/
theorem split_invariance (s : List Nat) (chunks : List (List Nat))
    (hs : ValidPacket s) (hne : ∀ c ∈ chunks, c ≠ [])
    (hj : chunks.flatten = s) :
    feedChunks [] chunks = ([], [s]) := by
  apply feed_chunks_seg s hs chunks [] hne (by simpa using hj)
  intro h
  have h2 := valid_len s hs
  rw [← h] at h2
  simp at h2

/-- Witness for C1: the packet [0x20, 0x10, 0xAB] split one byte per
chunk. -/
theorem split_invariance_witness :
    feedChunks [] [[0x20], [0x10], [0xAB]] = ([], [[0x20, 0x10, 0xAB]]) :=
  split_invariance [0x20, 0x10, 0xAB] [[0x20], [0x10], [0xAB]] (by decide)
    (by decide) (by decide)

lemma getD_lt_256 : ∀ (l : List Nat) (i : Nat), i < l.length →
    (∀ x ∈ l, x < 256) → l.getD i 0 < 256 := by
  intro l
  induction l with
  | nil => intro i hi _; simp at hi
  | cons a l ih =>
      intro i hi hb
      cases i with
      | zero => simpa using hb a (by simp)
      | succ j =>
          simp only [List.getD_cons_succ]
          exact ih j (by simpa using hi) (fun x hx => hb x (by simp [hx]))

lemma getD_append_left : ∀ (l l' : List Nat) (i : Nat), i < l.length →
    (l ++ l').getD i 0 = l.getD i 0 := by
  intro l
  induction l with
  | nil => intro l' i hi; simp at hi
  | cons a l ih =>
      intro l' i hi
      cases i with
      | zero => simp
      | succ j =>
          simp only [List.cons_append, List.getD_cons_succ]
          exact ih l' j (by simpa using hi)

lemma bodyFill_eq (q b : List Nat) (hq : 2 ≤ q.length)
    (hle : q.length ≤ expectedLength (q.getD 0 0) (q.getD 1 0))
    (hcap : expectedLength (q.getD 0 0) (q.getD 1 0) < SIZE_T_MOD) :
    bodyFill q b =
      (q ++ b.take (min b.length (expectedLength (q.getD 0 0) (q.getD 1 0) - q.length)),
       b.drop (min b.length (expectedLength (q.getD 0 0) (q.getD 1 0) - q.length)),
       ((q.length + min b.length (expectedLength (q.getD 0 0) (q.getD 1 0) - q.length)) ==
         expectedLength (q.getD 0 0) (q.getD 1 0))) := by
  unfold bodyFill
  dsimp only
  rw [sizeSub_of_le _ _ hle hcap]
  have hlen : (q ++ b.take (min b.length
      (expectedLength (q.getD 0 0) (q.getD 1 0) - q.length))).length =
      q.length + min b.length (expectedLength (q.getD 0 0) (q.getD 1 0) - q.length) := by
    simp only [List.length_append, List.length_take]
    omega
  rw [hlen]

lemma next_packet_eq_body (p b : List Nat) (h : 2 ≤ p.length) :
    next_packet p b = bodyFill p b := by
  unfold next_packet
  rw [headerFill_full p b h]
  dsimp only
  rw [if_neg (by omega)]

lemma next_packet_eq_small (p b : List Nat) (h : p.length + b.length < 2) :
    next_packet p b = (p ++ b, [], false) := by
  have h1 : p.length < 2 := by omega
  have hmin : min b.length (2 - p.length) = b.length := by omega
  have hhf : headerFill p b = (p ++ b, []) := by
    unfold headerFill
    rw [if_pos h1, hmin, List.take_length, List.drop_length]
  unfold next_packet
  rw [hhf]
  dsimp only
  rw [if_pos (by simp only [List.length_append]; omega)]

lemma next_packet_eq_fill (p b : List Nat) (hlt : p.length < 2)
    (hge : 2 ≤ p.length + b.length) :
    next_packet p b =
      bodyFill (p ++ b.take (2 - p.length)) (b.drop (2 - p.length)) := by
  have hmin : min b.length (2 - p.length) = 2 - p.length := by omega
  have hhf : headerFill p b =
      (p ++ b.take (2 - p.length), b.drop (2 - p.length)) := by
    unfold headerFill
    rw [if_pos hlt, hmin]
  unfold next_packet
  rw [hhf]
  dsimp only
  rw [if_neg (by simp only [List.length_append, List.length_take]; omega)]

/-- C10: for every `next_packet` call on byte-valued buffers in which the
buffered length does not exceed the header-derived expected length on
entry, the increase in `*packet_len` equals the decrease in `*buf_len`
(with `*buf` advancing by exactly the consumed prefix), `*packet_len`
never exceeds the expected length on exit, and the call returns 1 exactly
when `*packet_len` equals the expected length — so bytes belonging to a
following packet are left unconsumed in the input. -/
theorem next_packet_io (p b : List Nat)
    (hpb : ∀ x ∈ p, x < 256) (hbb : ∀ x ∈ b, x < 256)
    (hinv : 2 ≤ p.length → p.length ≤ expectedLength (p.getD 0 0) (p.getD 1 0)) :
    p.length ≤ (next_packet p b).1.length
    ∧ (next_packet p b).1 = p ++ b.take ((next_packet p b).1.length - p.length)
    ∧ (next_packet p b).2.1 = b.drop ((next_packet p b).1.length - p.length)
    ∧ (next_packet p b).1.length + (next_packet p b).2.1.length =
        p.length + b.length
    ∧ (2 ≤ (next_packet p b).1.length →
        (next_packet p b).1.length ≤
          expectedLength ((next_packet p b).1.getD 0 0)
            ((next_packet p b).1.getD 1 0))
    ∧ ((next_packet p b).2.2 = true ↔
        (2 ≤ (next_packet p b).1.length ∧
          (next_packet p b).1.length =
            expectedLength ((next_packet p b).1.getD 0 0)
              ((next_packet p b).1.getD 1 0))) := by
  by_cases hA : 2 ≤ p.length
  · have hcap : expectedLength (p.getD 0 0) (p.getD 1 0) < SIZE_T_MOD := by
      have hb1 : p.getD 1 0 < 256 := getD_lt_256 p 1 (by omega) hpb
      have h := expectedLength_le_cap (p.getD 0 0) (p.getD 1 0) hb1
      unfold SIZE_T_MOD
      omega
    have hle := hinv hA
    rw [next_packet_eq_body p b hA, bodyFill_eq p b hA hle hcap]
    set E := expectedLength (p.getD 0 0) (p.getD 1 0) with hE
    set n := min b.length (E - p.length) with hn
    have hnb : n ≤ b.length := by omega
    have hlen1 : (p ++ b.take n).length = p.length + n := by
      simp only [List.length_append, List.length_take]
      omega
    have hg0 : (p ++ b.take n).getD 0 0 = p.getD 0 0 :=
      getD_append_left p _ 0 (by omega)
    have hg1 : (p ++ b.take n).getD 1 0 = p.getD 1 0 :=
      getD_append_left p _ 1 (by omega)
    have harg : p.length + n - p.length = n := by omega
    dsimp only
    refine ⟨?_, ?_, ?_, ?_, ?_, ?_⟩
    · rw [hlen1]
      omega
    · rw [hlen1, harg]
    · rw [hlen1, harg]
    · rw [hlen1]
      simp only [List.length_drop]
      omega
    · intro _
      rw [hlen1, hg0, hg1, ← hE]
      omega
    · rw [hlen1, hg0, hg1, ← hE]
      simp only [beq_iff_eq]
      constructor
      · intro h
        exact ⟨by omega, h⟩
      · intro h
        exact h.2
  · push_neg at hA
    by_cases hB : p.length + b.length < 2
    · rw [next_packet_eq_small p b hB]
      dsimp only
      have harg : (p ++ b).length - p.length = b.length := by
        simp only [List.length_append]
        omega
      refine ⟨?_, ?_, ?_, ?_, ?_, ?_⟩
      · simp
      · rw [harg, List.take_length]
      · rw [harg, List.drop_length]
      · simp
      · intro h
        simp only [List.length_append] at h
        omega
      · simp only [Bool.false_eq_true, false_iff]
        intro hcontra
        have h2 := hcontra.1
        simp only [List.length_append] at h2
        omega
    · push_neg at hB
      set q := p ++ b.take (2 - p.length) with hq
      set d := b.drop (2 - p.length) with hd
      have hql : q.length = 2 := by
        rw [hq]
        simp only [List.length_append, List.length_take]
        omega
      have hqb : ∀ x ∈ q, x < 256 := by
        rw [hq]
        intro x hx
        rcases List.mem_append.mp hx with h | h
        · exact hpb x h
        · exact hbb x (List.take_subset _ _ h)
      have hcap : expectedLength (q.getD 0 0) (q.getD 1 0) < SIZE_T_MOD := by
        have hb1 : q.getD 1 0 < 256 := getD_lt_256 q 1 (by omega) hqb
        have h := expectedLength_le_cap (q.getD 0 0) (q.getD 1 0) hb1
        unfold SIZE_T_MOD
        omega
      have hle : q.length ≤ expectedLength (q.getD 0 0) (q.getD 1 0) := by
        rw [hql]
        exact expectedLength_ge_two _ _
      rw [next_packet_eq_fill p b (by omega) hB, bodyFill_eq q d (by omega) hle hcap]
      set E := expectedLength (q.getD 0 0) (q.getD 1 0) with hE
      set n := min d.length (E - q.length) with hn
      have hdl : d.length = b.length - (2 - p.length) := by
        rw [hd]
        simp
      have hnd : n ≤ d.length := by omega
      have hlen1 : (q ++ d.take n).length = 2 + n := by
        simp only [List.length_append, List.length_take]
        omega
      have hg0 : (q ++ d.take n).getD 0 0 = q.getD 0 0 :=
        getD_append_left q _ 0 (by omega)
      have hg1 : (q ++ d.take n).getD 1 0 = q.getD 1 0 :=
        getD_append_left q _ 1 (by omega)
      have htake : q ++ d.take n = p ++ b.take ((2 - p.length) + n) := by
        rw [hq, hd, List.append_assoc]
        congr 1
        exact (List.take_add b (2 - p.length) n).symm
      have hdrop : d.drop n = b.drop ((2 - p.length) + n) := by
        rw [hd, List.drop_drop]
      have harg : 2 + n - p.length = (2 - p.length) + n := by omega
      dsimp only
      refine ⟨?_, ?_, ?_, ?_, ?_, ?_⟩
      · rw [hlen1]
        omega
      · rw [hlen1, htake, harg]
      · rw [hlen1, hdrop, harg]
      · rw [hlen1]
        simp only [List.length_drop]
        omega
      · intro _
        rw [hlen1, hg0, hg1, ← hE]
        omega
      · rw [hlen1, hg0, hg1, ← hE, hql]
        simp only [beq_iff_eq]
        constructor
        · intro h
          exact ⟨by omega, by omega⟩
        · intro h
          obtain ⟨h2, h3⟩ := h
          omega

/-- Witness for C10 at the concrete call `next_packet [] [0x05, 0x00, 0x99]`
(a complete special packet followed by one byte of the next packet). -/
theorem next_packet_io_witness :
    ([] : List Nat).length ≤ (next_packet [] [0x05, 0x00, 0x99]).1.length
    ∧ (next_packet [] [0x05, 0x00, 0x99]).1 =
        [] ++ List.take ((next_packet [] [0x05, 0x00, 0x99]).1.length -
          ([] : List Nat).length) [0x05, 0x00, 0x99]
    ∧ (next_packet [] [0x05, 0x00, 0x99]).2.1 =
        List.drop ((next_packet [] [0x05, 0x00, 0x99]).1.length -
          ([] : List Nat).length) [0x05, 0x00, 0x99]
    ∧ (next_packet [] [0x05, 0x00, 0x99]).1.length +
        (next_packet [] [0x05, 0x00, 0x99]).2.1.length =
        ([] : List Nat).length + ([0x05, 0x00, 0x99] : List Nat).length
    ∧ (2 ≤ (next_packet [] [0x05, 0x00, 0x99]).1.length →
        (next_packet [] [0x05, 0x00, 0x99]).1.length ≤
          expectedLength ((next_packet [] [0x05, 0x00, 0x99]).1.getD 0 0)
            ((next_packet [] [0x05, 0x00, 0x99]).1.getD 1 0))
    ∧ ((next_packet [] [0x05, 0x00, 0x99]).2.2 = true ↔
        (2 ≤ (next_packet [] [0x05, 0x00, 0x99]).1.length ∧
          (next_packet [] [0x05, 0x00, 0x99]).1.length =
            expectedLength ((next_packet [] [0x05, 0x00, 0x99]).1.getD 0 0)
              ((next_packet [] [0x05, 0x00, 0x99]).1.getD 1 0))) :=
  next_packet_io [] [0x05, 0x00, 0x99] (by decide) (by decide) (by decide)
